import Mathlib

/-
Verification of the ebsnet/blockchain accounting-ledger core against its
natural-language specification.

The repository contains two generations of the engine:
  * the root crate (`src/block.rs`, `src/blockchain.rs`) with `difficulty : u8`
    checked as that many all-zero *bytes* of the hash (namespace `Root` below);
  * the workspace crate `lib/blockchain` (`src/block.rs`, `src/stack.rs`) with
    `difficulty : usize` checked bit-by-bit by `validate_difficulty`, a wrapping
    nonce and `proof_of_work` (namespace `Lib` below).
`lib/blockchain/src/blockchain.rs` (the chain of the workspace crate: `insert`,
`is_genesis`, the iterator type) is declared in `lib.rs` but its file is not in
the pack, so those two operations are modelled from the spec (§4.2, §4.3) and
marked as such.

Machine integers are modelled as `Nat`; the only place where overflow matters
is the wrapping nonce increment, modelled with an explicit `% 2 ^ 64`.
The hash function (`H: Digest` in the source, SHA-256 in production) is a
parameter `hash : Block D → List Nat` mapping a block to its digest bytes,
mirroring the source's genericity over `H`.  The Ed25519 verification of the
cryptography crate is a parameter `verify` returning `Except Unit Bool`,
mirroring `validate_signature`'s `Result<bool, Error>`.
-/

set_option autoImplicit false

namespace BC

/-- The six-field block record shared (same fields, same order) by
`src/block.rs` and `lib/blockchain/src/block.rs`.  `prev_hash` is the byte
array `GenericArray<u8, H::OutputSize>`; `data : D` keeps the source's
genericity over the payload. -/
structure Block (D : Type) where
  version : Nat
  prev_hash : List Nat
  time : Nat
  difficulty : Nat
  nonce : Nat
  data : D
deriving DecidableEq

/-- `pub const VERSION: u8 = 1;` (identical in both crates). -/
def VERSION : Nat := 1

/-- The error enum `BlockchainError` (identical in both crates up to the
difficulty's integer width).  The Rust variants carry `format!("{:?}", …)`
strings of these values; we carry the values themselves. -/
inductive BlockchainError
  | InvalidBlockHash (hash : List Nat) (difficulty : Nat)
  | InvalidPrevHash (observed expected : List Nat)
  | UnknownVersion (v : Nat)
deriving DecidableEq

/-- `PersistingError` from both crates' `lib.rs`. -/
inductive PersistingError
  | DeserializingError
  | SerializingError
  | IoError
deriving DecidableEq

/-- Bool view of a `Result` used for `.is_ok()`. -/
def isOkB {ε α : Type} : Except ε α → Bool
  | .ok _ => true
  | .error _ => false

/-- `Result::ok()` — drops the error. -/
def resOk {ε α : Type} : Except ε α → Option α
  | .ok a => some a
  | .error _ => none

namespace Root

/-- `Blockchain::validate_block` from `src/blockchain.rs` (root crate): the
first `difficulty` *bytes* of the hash must be zero, and the version must be
`VERSION`; the version is tested first. -/
def validate_block {D : Type} (hash : Block D → List Nat) (b : Block D) :
    Except BlockchainError Unit :=
  let valid_difficulty := ((hash b).take b.difficulty).all (fun byte => byte == 0)
  if b.version ≠ VERSION then
    Except.error (BlockchainError.UnknownVersion b.version)
  else if valid_difficulty then
    Except.ok ()
  else
    Except.error (BlockchainError.InvalidBlockHash (hash b) b.difficulty)

/-- `Blockchain::insert` from `src/blockchain.rs` (root crate).  The chain is
the newest-first element sequence of the block stack.  The head's hash is
compared against `block.prev_hash` (skipped on an empty chain), then
`validate_block` runs, then the block becomes the new head. -/
def insert {D : Type} (hash : Block D → List Nat) (c : List (Block D)) (b : Block D) :
    Except BlockchainError (List (Block D)) :=
  (match c.head? with
    | none => Except.ok ()
    | some head =>
      if hash head == b.prev_hash then Except.ok ()
      else Except.error (BlockchainError.InvalidPrevHash b.prev_hash (hash head))).bind
    (fun _ => (validate_block hash b).map (fun _ => b :: c))

/-- The fold body of `Blockchain::validate_chain`: the accumulator carries the
previously visited (newer) block and the running validity flag. -/
def chain_step {D : Type} (hash : Block D → List Nat)
    (acc : Option (Block D) × Bool) (blk : Block D) : Option (Block D) × Bool :=
  (some blk,
    acc.2 &&
      (match acc.1 with
        | some b =>
          b.prev_hash == hash blk && decide (b.time ≥ blk.time) &&
            isOkB (validate_block hash blk)
        | none => true))

/-- `Blockchain::validate_chain` from `src/blockchain.rs` (root crate): a fold
over the newest-first iteration. -/
def validate_chain {D : Type} (hash : Block D → List Nat) (c : List (Block D)) : Bool :=
  (c.foldl (chain_step hash) ((none : Option (Block D)), true)).2

/-- The per-pair check of `validate_chain`, read off the fold body: linkage,
non-decreasing time, and `validate_block` of the older block. -/
def adjacent_ok {D : Type} (hash : Block D → List Nat) (newer older : Block D) : Bool :=
  newer.prev_hash == hash older && decide (newer.time ≥ older.time) &&
    isOkB (validate_block hash older)

/-- Spec-side restatement of the walk of `validate_chain` as a recursion on the
newest-first list, threading the previously visited block. -/
def pairs_ok {D : Type} (hash : Block D → List Nat) :
    Option (Block D) → List (Block D) → Bool
  | _, [] => true
  | none, b :: rest => pairs_ok hash (some b) rest
  | some p, b :: rest => adjacent_ok hash p b && pairs_ok hash (some b) rest

end Root

namespace Lib

/-- `u8::leading_zeros` for a byte value. -/
def u8_leading_zeros (x : Nat) : Nat :=
  if 128 ≤ x then 0
  else if 64 ≤ x then 1
  else if 32 ≤ x then 2
  else if 16 ≤ x then 3
  else if 8 ≤ x then 4
  else if 4 ≤ x then 5
  else if 2 ≤ x then 6
  else if 1 ≤ x then 7
  else 8

/-- The fold body of `Block::validate_difficulty` from
`lib/blockchain/src/block.rs`: the accumulator carries the remaining
difficulty and the running flag. -/
def difficulty_step (acc : Nat × Bool) (byte : Nat) : Nat × Bool :=
  if 8 ≤ acc.1 then
    (acc.1 - 8, acc.2 && (u8_leading_zeros byte == 8))
  else
    (acc.1, acc.2 && decide (acc.1 ≤ u8_leading_zeros byte))

/-- `Block::validate_difficulty` from `lib/blockchain/src/block.rs`, expressed
on the digest bytes `H` and the difficulty `d`: fold `difficulty_step` over the
first `d / 8 + 1` bytes starting from `(d, true)`.  This is the §4.2 difficulty
predicate of the spec. -/
def check_difficulty (H : List Nat) (d : Nat) : Bool :=
  ((H.take (d / 8 + 1)).foldl difficulty_step (d, true)).2

/-- `Block::validate_difficulty` applied to a block (the source calls
`self.hash()` and reads `self.difficulty`). -/
def validate_difficulty {D : Type} (hash : Block D → List Nat) (b : Block D) : Bool :=
  check_difficulty (hash b) b.difficulty

/-- `Block::set_nonce` — replaces nonce and time. -/
def set_nonce {D : Type} (b : Block D) (nonce time : Nat) : Block D :=
  { b with nonce := nonce, time := time }

/-- `Block::increment_nonce` from `lib/blockchain/src/block.rs`:
`nonce.wrapping_add(1)` and a fresh time. -/
def increment_nonce {D : Type} (b : Block D) (time : Nat) : Block D :=
  set_nonce b ((b.nonce + 1) % 2 ^ 64) time

/-- `Block::proof_of_work` from `lib/blockchain/src/block.rs`.  The source
recursion (`if self.validate_difficulty() { self } else
{ self.increment_nonce(current_time()).proof_of_work() }`) has no termination
argument, so it is indexed by fuel; `ts` supplies the value of `current_time()`
at each remaining-fuel step.  `none` means the fuel ran out before a
satisfying nonce was found. -/
def proof_of_work_fuel {D : Type} (hash : Block D → List Nat) (ts : Nat → Nat) :
    Nat → Block D → Option (Block D)
  | 0, _ => none
  | fuel + 1, b =>
    if validate_difficulty hash b then some b
    else proof_of_work_fuel hash ts fuel (increment_nonce b (ts fuel))

/-- The persistent stack of `lib/blockchain/src/stack.rs`.  `elems` is the
newest-first node sequence reachable from the `head` link; `len` is the cached
length field (stored separately in the source, hence a separate field here). -/
structure Stack (T : Type) where
  elems : List T
  len : Nat
deriving DecidableEq

/-- `Stack::new`. -/
def Stack.new {T : Type} : Stack T := ⟨[], 0⟩

/-- `Stack::append` — a fresh node in front of the previous head, cached length
incremented. -/
def Stack.append {T : Type} (s : Stack T) (e : T) : Stack T :=
  ⟨e :: s.elems, s.len + 1⟩

/-- `Stack::head`. -/
def Stack.head {T : Type} (s : Stack T) : Option T := s.elems.head?

/-- `Stack::tail` — the optional head element and the stack of the head's
successor; the cached length decrements only when a head existed. -/
def Stack.tail {T : Type} (s : Stack T) : Option T × Stack T :=
  (s.elems.head?, ⟨s.elems.tail, if s.elems.isEmpty then s.len else s.len - 1⟩)

/-- `Stack::iter` — the newest-first element sequence. -/
def Stack.iterList {T : Type} (s : Stack T) : List T := s.elems

/-- `Stack`'s `Serialize` impl: a seq of the elements in iteration order
(newest first). -/
def Stack.serialize {T : Type} (s : Stack T) : List T := s.elems

/-- `Stack`'s `Deserialize` impl (`StackVisitor::visit_seq`): read the decoded
elements into a buffer, then rebuild by pushing them in reverse order. -/
def Stack.deserialize {T : Type} (l : List T) : Stack T :=
  l.reverse.foldl (fun c v => c.append v) Stack.new

/-- `Stack`'s `PartialEq` impl: equal cached lengths and pairwise-equal zipped
elements. -/
def Stack.beqStacks {T : Type} [DecidableEq T] (s t : Stack T) : Bool :=
  s.len == t.len && ((s.elems.zip t.elems).all (fun p => p.1 == p.2))

/-- Modelled from the spec: the genesis test of §4.2 ("a block is genesis-like
iff `prev_hash` is the all-zero array").  `Block::is_genesis` lives in
`lib/blockchain/src/blockchain.rs`, which is not in the pack. -/
def is_genesis {D : Type} (b : Block D) : Bool :=
  b.prev_hash.all (fun byte => byte == 0)

/-- Modelled from the spec: `Blockchain::insert` of the workspace crate
(§4.3; `lib/blockchain/src/blockchain.rs` is not in the pack).  Checks, in
order: linkage against the current head (skipped on an empty chain), version,
and the §4.2 difficulty predicate — the difficulty predicate itself is the
source's `Block::validate_difficulty`.  On success the block is appended to
the underlying stack. -/
def insert {D : Type} (hash : Block D → List Nat) (c : Stack (Block D)) (b : Block D) :
    Except BlockchainError (Stack (Block D)) :=
  (match c.head with
    | none => Except.ok ()
    | some h =>
      if hash h == b.prev_hash then Except.ok ()
      else Except.error (BlockchainError.InvalidPrevHash b.prev_hash (hash h))).bind
    (fun _ =>
      if b.version ≠ VERSION then
        Except.error (BlockchainError.UnknownVersion b.version)
      else if validate_difficulty hash b then
        Except.ok (c.append b)
      else
        Except.error (BlockchainError.InvalidBlockHash (hash b) b.difficulty))

end Lib

namespace Worker

/-- `Fingerprint` from `lib/data/src/tx.rs` (`Vec<u8>`). -/
abbrev Fingerprint := List Nat

/-- `PublicKey` from `lib/cryptography/src/lib.rs` (`Vec<u8>`). -/
abbrev PublicKey := List Nat

/-- The payload enum `Data` from `lib/data/src/tx.rs`. -/
inductive Data
  | Billing (fp : Fingerprint)
  | Usage (u : Nat)
deriving DecidableEq

/-- `SignedData<T>` from `lib/data/src/tx.rs`. -/
structure SignedData (T : Type) where
  signature : List Nat
  data : T
deriving DecidableEq

/-- `BlockData = SignedData<Data>`. -/
abbrev BlockData := SignedData Data

/-- The production block type `data::Block = Block<BlockData, Sha256>`. -/
abbrev Blk := Block BlockData

/-- `BillingQuery` from `lib/cryptography/src/lib.rs`. -/
structure BillingQuery where
  signee : PublicKey
  user : Fingerprint

/-- The worker's `BlockchainError` from `bin/worker/src/error.rs`. -/
inductive WorkerError
  | InvalidBlock
  | CannotGetLock
  | EmptyChain
deriving DecidableEq

/-- The external Ed25519 check `validate_signature(pub_key, data)`, of type
`Result<bool, Error>`; the error payload is irrelevant to the core. -/
abbrev Verify := PublicKey → BlockData → Except Unit Bool

/-- `.unwrap_or(false)` on the verification result, as applied in
`ServerState::latest_billing`. -/
def unwrap_or_false (r : Except Unit Bool) : Bool :=
  match r with
  | .ok b => b
  | .error _ => false

/-- The per-block match test of `ServerState::latest_billing`
(`bin/worker/src/state.rs`): the payload is a Billing record whose fingerprint
equals `query.user` and whose signature validates against `query.signee`. -/
def is_match (verify : Verify) (q : BillingQuery) (blk : Blk) : Bool :=
  match blk.data.data with
  | .Billing fp => fp == q.user && unwrap_or_false (verify q.signee blk.data)
  | .Usage _ => false

/-- The collection loop of `ServerState::latest_billing`: push the block, stop
inclusively on the first match, return `none` (the `Ok(None)` early return)
when a genesis-like block is passed without matching. -/
def walk (verify : Verify) (q : BillingQuery) :
    List Blk → List Blk → Option (List Blk)
  | [], cloned => some cloned
  | blk :: rest, cloned =>
    let cloned := cloned ++ [blk]
    if is_match verify q blk then some cloned
    else if Lib.is_genesis blk then none
    else walk verify q rest cloned

/-- The rebuild fold of `ServerState::latest_billing`: sequential `insert`
into an empty chain, short-circuiting on the first error. -/
def rebuild (hash : Blk → List Nat) (l : List Blk) :
    Except BlockchainError (Lib.Stack Blk) :=
  l.foldl (fun acc b => acc.bind (fun c => Lib.insert hash c b)) (Except.ok Lib.Stack.new)

/-- `ServerState::latest_billing` (`bin/worker/src/state.rs`), with the read
lock abstracted away (the `Ok` branch of `self.chain.read()`): walk the chain
newest-first, then reverse the buffer, rebuild by insertion and drop any
rebuild error with `.ok()`.  `none` is the null result. -/
def latest_billing (hash : Blk → List Nat) (verify : Verify) (q : BillingQuery)
    (chain : Lib.Stack Blk) : Option (Lib.Stack Blk) :=
  match walk verify q chain.elems [] with
  | none => none
  | some cloned => resOk (rebuild hash cloned.reverse)

/-- `WrappedChain::append` (`bin/webservice/src/wrapper.rs`, delegated to by
`ServerState::append` with the write lock abstracted away): on insert success
the snapshot is replaced and `persist_to_disk(path).ok()` discards the
persistence outcome (`persist` models that outcome); on insert failure the
error collapses to `InvalidBlock` and the snapshot stays. -/
def wrapped_append (hash : Blk → List Nat) (persist : Except PersistingError Unit)
    (s : Lib.Stack Blk) (b : Blk) : Except WorkerError Unit × Lib.Stack Blk :=
  match Lib.insert hash s b with
  | .ok newChain =>
    let _ := persist
    (Except.ok (), newChain)
  | .error _ => (Except.error WorkerError.InvalidBlock, s)

end Worker

namespace Ex

/-! Concrete instantiations used by witnesses and counterexamples.  The hash
parameters are legitimate instantiations of the source's genericity over
`H: Digest`; the blocks are values of the block record as a deserializer
(`load_from_disk`, the HTTP shell) can produce them. -/

/-- A 32-byte digest function that is constantly all-zero. -/
def hashZ {D : Type} : Block D → List Nat := fun _ => List.replicate 32 0

/-- A 32-byte digest function that is constantly all-0xFF. -/
def hashFF {D : Type} : Block D → List Nat := fun _ => List.replicate 32 255

/-- A verifier that always accepts. -/
def verifyT : Worker.Verify := fun _ _ => Except.ok true

/-- A verifier that always rejects. -/
def verifyF : Worker.Verify := fun _ _ => Except.ok false

/-- A verifier that always fails with an error (the `Err` case of
`validate_signature`). -/
def verifyE : Worker.Verify := fun _ _ => Except.error ()

/-- A query for user fingerprint `[7]` signed by key `[1]`. -/
def query7 : Worker.BillingQuery := ⟨[1], [7]⟩

/-- A non-genesis previous hash. -/
def ph1 : List Nat := 1 :: List.replicate 31 0

/-- A Billing block for user `[7]` with an invalid version (2); difficulty 0,
non-genesis `prev_hash`. -/
def billingBad : Worker.Blk :=
  ⟨2, ph1, 0, 0, 0, ⟨List.replicate 64 0, Worker.Data.Billing [7]⟩⟩

/-- A Billing block for user `[7]` with version 1 and difficulty 0. -/
def billingGood : Worker.Blk :=
  ⟨1, ph1, 0, 0, 0, ⟨List.replicate 64 0, Worker.Data.Billing [7]⟩⟩

/-- A Usage block with an invalid version (2); difficulty 0, non-genesis
`prev_hash`. -/
def usageBad : Worker.Blk :=
  ⟨2, ph1, 0, 0, 0, ⟨List.replicate 64 0, Worker.Data.Usage 5⟩⟩

/-- A Usage block with version 1 and difficulty 0, non-genesis `prev_hash`. -/
def usageGood : Worker.Blk :=
  ⟨1, ph1, 0, 0, 0, ⟨List.replicate 64 0, Worker.Data.Usage 9⟩⟩

/-- One-block chain holding the bad Billing block. -/
def chainBB : Lib.Stack Worker.Blk := ⟨[billingBad], 1⟩

/-- One-block chain holding the bad Usage block. -/
def chainUB : Lib.Stack Worker.Blk := ⟨[usageBad], 1⟩

/-- One-block chain holding the good Usage block. -/
def chainUG : Lib.Stack Worker.Blk := ⟨[usageGood], 1⟩

/-- One-block chain holding the good Billing block. -/
def chainBG : Lib.Stack Worker.Blk := ⟨[billingGood], 1⟩

/-- A block over payload `Nat`, version 1, difficulty 1. -/
def blkD1 : Block Nat := ⟨1, [], 0, 1, 0, 0⟩

/-- A genesis-style block over payload `Nat`, difficulty 0. -/
def blkG : Block Nat := ⟨1, List.replicate 32 0, 0, 0, 0, 0⟩

/-- A block over payload `Nat` whose `prev_hash` matches no all-zero digest. -/
def blkBadPrev : Block Nat := ⟨1, List.replicate 32 7, 0, 0, 0, 1⟩

/-- A block over payload `Nat` used for the proof-of-work witness. -/
def blkPow : Block Nat := ⟨1, [], 5, 0, 3, 2⟩

/-- A constant time source. -/
def ts0 : Nat → Nat := fun _ => 0

end Ex

/-! ## Difficulty: the byte-level check of the root crate implies the §4.2
bit-level predicate -/

theorem u8_leading_zeros_zero : Lib.u8_leading_zeros 0 = 8 := by decide

theorem difficulty_step_zero_byte (d : Nat) :
    Lib.difficulty_step (d, true) 0 = (if 8 ≤ d then d - 8 else d, true) := by
  unfold Lib.difficulty_step
  by_cases hd : 8 ≤ d
  · simp [hd, u8_leading_zeros_zero]
  · simp [hd, u8_leading_zeros_zero]
    omega

theorem foldl_difficulty_step_zeros (l : List Nat) (hm : ∀ x ∈ l, x = 0) :
    ∀ d : Nat, (l.foldl Lib.difficulty_step (d, true)).2 = true := by
  induction l with
  | nil => intro d; rfl
  | cons x t ih =>
    intro d
    have hx : x = 0 := hm x (by simp)
    subst hx
    rw [List.foldl_cons, difficulty_step_zero_byte]
    exact ih (fun y hy => hm y (by simp [hy])) _

theorem bytes_zero_imp_check_difficulty (H : List Nat) (d : Nat)
    (h : (H.take d).all (fun byte => byte == 0) = true) :
    Lib.check_difficulty H d = true := by
  unfold Lib.check_difficulty
  rcases Nat.eq_zero_or_pos d with rfl | hd
  · have h1 : (0 : Nat) / 8 + 1 = 1 := by norm_num
    rw [h1]
    cases H with
    | nil => rfl
    | cons x t =>
      simp [Lib.difficulty_step]
  · have hle : d / 8 + 1 ≤ d := by omega
    have hsub : (H.take d).take (d / 8 + 1) = H.take (d / 8 + 1) := by
      rw [List.take_take, min_eq_left hle]
    rw [← hsub]
    refine foldl_difficulty_step_zeros _ ?_ d
    intro x hx
    have hx' : x ∈ H.take d := List.take_subset _ _ hx
    simpa using List.all_eq_true.mp h x hx'

/-! ## The root crate's validate_block and insert -/

theorem validate_block_ok_iff {D : Type} (hash : Block D → List Nat) (b : Block D) :
    Root.validate_block hash b = Except.ok () ↔
      b.version = VERSION ∧
        ((hash b).take b.difficulty).all (fun byte => byte == 0) = true := by
  unfold Root.validate_block
  by_cases hv : b.version = VERSION
  · cases hvd : ((hash b).take b.difficulty).all (fun byte => byte == 0) <;>
      simp [hv, hvd]
  · simp [hv]

theorem validate_block_invalid_hash {D : Type} (hash : Block D → List Nat) (b : Block D)
    (hv : b.version = VERSION)
    (hvd : ((hash b).take b.difficulty).all (fun byte => byte == 0) = false) :
    Root.validate_block hash b =
      Except.error (BlockchainError.InvalidBlockHash (hash b) b.difficulty) := by
  unfold Root.validate_block
  simp [hv, hvd]

theorem insert_ok_validate_block {D : Type} (hash : Block D → List Nat)
    (c : List (Block D)) (b : Block D) (c' : List (Block D))
    (h : Root.insert hash c b = Except.ok c') :
    Root.validate_block hash b = Except.ok () ∧ c' = b :: c := by
  unfold Root.insert at h
  cases hp : (match c.head? with
    | none => Except.ok ()
    | some head =>
      if hash head == b.prev_hash then Except.ok ()
      else Except.error (BlockchainError.InvalidPrevHash b.prev_hash (hash head)) :
        Except BlockchainError Unit) with
  | error e => rw [hp] at h; simp [Except.bind] at h
  | ok u =>
    rw [hp] at h
    simp only [Except.bind] at h
    cases hvb : Root.validate_block hash b with
    | error e => rw [hvb] at h; simp [Except.map] at h
    | ok u' =>
      rw [hvb] at h
      simp only [Except.map] at h
      cases u'
      exact ⟨rfl, (Except.ok.injEq _ _ |>.mp h.symm).symm ▸ rfl⟩

/-- Claim C1: `Blockchain::insert` (root crate) appends a block only if the
block's hash satisfies the §4.2 difficulty predicate (`check_difficulty`,
read off `Block::validate_difficulty` of `lib/blockchain`), and a block that
fails the predicate while its version is 1 and its `prev_hash` matches the
head is rejected with `InvalidBlockHash`.  The source's byte-level test
(`difficulty` leading zero *bytes*) is strictly stronger than the predicate,
so both directions claimed hold. -/
theorem insert_only_appends_difficulty_satisfying {D : Type}
    (hash : Block D → List Nat) (c : List (Block D)) (b : Block D) :
    (∀ c', Root.insert hash c b = Except.ok c' →
      Lib.check_difficulty (hash b) b.difficulty = true) ∧
    (b.version = VERSION →
      (∀ h, c.head? = some h → hash h = b.prev_hash) →
      Lib.check_difficulty (hash b) b.difficulty = false →
      Root.insert hash c b =
        Except.error (BlockchainError.InvalidBlockHash (hash b) b.difficulty)) := by
  constructor
  · intro c' hins
    have hok := (insert_ok_validate_block hash c b c' hins).1
    have hbytes := (validate_block_ok_iff hash b).mp hok |>.2
    exact bytes_zero_imp_check_difficulty _ _ hbytes
  · intro hv hh hcf
    have hbytes : ((hash b).take b.difficulty).all (fun byte => byte == 0) = false := by
      cases hb : ((hash b).take b.difficulty).all (fun byte => byte == 0) with
      | false => rfl
      | true =>
        exact absurd (bytes_zero_imp_check_difficulty _ _ hb) (by simp [hcf])
    unfold Root.insert
    have hpre : (match c.head? with
      | none => Except.ok ()
      | some head =>
        if hash head == b.prev_hash then Except.ok ()
        else Except.error (BlockchainError.InvalidPrevHash b.prev_hash (hash head)) :
          Except BlockchainError Unit) = Except.ok () := by
      cases hc : c.head? with
      | none => rfl
      | some hd => simp [hh hd hc]
    rw [hpre]
    simp only [Except.bind]
    rw [validate_block_invalid_hash hash b hv hbytes]
    rfl

/-- Witness for C1: a concrete all-0xFF digest fails difficulty 1, and the
corresponding insert into the empty chain is rejected with
`InvalidBlockHash`. -/
theorem insert_only_appends_difficulty_satisfying_witness :
    Root.insert Ex.hashFF [] Ex.blkD1 =
      Except.error
        (BlockchainError.InvalidBlockHash (List.replicate 32 255) 1) :=
  (insert_only_appends_difficulty_satisfying Ex.hashFF [] Ex.blkD1).2 rfl
    (fun _ hh => by cases hh) (by decide)

/-- Claim C4: on a non-empty chain, a block whose `prev_hash` differs from the
head's hash is rejected with `InvalidPrevHash` (before any difficulty
consideration — no assumption on the difficulty is needed), and `insert`
never mutates: a successful insert returns the new chain `b :: c`, the old
chain value being untouched by construction. -/
theorem insert_mismatched_prev_hash {D : Type} (hash : Block D → List Nat)
    (c : List (Block D)) (b : Block D) :
    (∀ h, c.head? = some h → hash h ≠ b.prev_hash →
      Root.insert hash c b =
        Except.error (BlockchainError.InvalidPrevHash b.prev_hash (hash h))) ∧
    (∀ c', Root.insert hash c b = Except.ok c' → c' = b :: c) := by
  constructor
  · intro h hc hne
    unfold Root.insert
    rw [hc]
    simp only [beq_eq_false_iff_ne.mpr hne, if_false, Bool.false_eq_true]
    rfl
  · intro c' hins
    exact (insert_ok_validate_block hash c b c' hins).2

/-- Witness for C4: a mismatched `prev_hash` on a one-block chain is rejected
with `InvalidPrevHash` even though the block's difficulty check would
succeed. -/
theorem insert_mismatched_prev_hash_witness :
    Root.insert Ex.hashZ [Ex.blkG] Ex.blkBadPrev =
      Except.error
        (BlockchainError.InvalidPrevHash (List.replicate 32 7) (List.replicate 32 0)) :=
  (insert_mismatched_prev_hash Ex.hashZ [Ex.blkG] Ex.blkBadPrev).1 Ex.blkG rfl
    (by decide)

/-! ## validate_chain as an adjacent-pair property -/

theorem foldl_chain_step {D : Type} (hash : Block D → List Nat) :
    ∀ (l : List (Block D)) (prev : Option (Block D)) (flag : Bool),
      (l.foldl (Root.chain_step hash) (prev, flag)).2 =
        (flag && Root.pairs_ok hash prev l) := by
  intro l
  induction l with
  | nil => intro prev flag; simp [Root.pairs_ok]
  | cons b rest ih =>
    intro prev flag
    rw [List.foldl_cons]
    cases prev with
    | none =>
      show (rest.foldl (Root.chain_step hash) (some b, flag && true)).2 = _
      rw [ih (some b) (flag && true)]
      simp [Root.pairs_ok]
    | some p =>
      show (rest.foldl (Root.chain_step hash)
        (some b, flag && Root.adjacent_ok hash p b)).2 = _
      rw [ih (some b) (flag && Root.adjacent_ok hash p b)]
      simp [Root.pairs_ok, Bool.and_assoc]

theorem pairs_ok_some_iff_chain' {D : Type} (hash : Block D → List Nat) :
    ∀ (l : List (Block D)) (p : Block D),
      Root.pairs_ok hash (some p) l = true ↔
        List.Chain' (fun newer older => Root.adjacent_ok hash newer older = true)
          (p :: l) := by
  intro l
  induction l with
  | nil => intro p; simp [Root.pairs_ok]
  | cons b rest ih =>
    intro p
    rw [List.chain'_cons]
    simp only [Root.pairs_ok, Bool.and_eq_true]
    rw [ih b]

theorem pairs_ok_none_iff_chain' {D : Type} (hash : Block D → List Nat)
    (l : List (Block D)) :
    Root.pairs_ok hash none l = true ↔
      List.Chain' (fun newer older => Root.adjacent_ok hash newer older = true) l := by
  cases l with
  | nil => simp [Root.pairs_ok]
  | cons b rest =>
    show Root.pairs_ok hash (some b) rest = true ↔ _
    exact pairs_ok_some_iff_chain' hash rest b

/-- Claim C3: `Blockchain::validate_chain` (root crate) returns true iff every
adjacent pair `(newer, older)` of the newest-first iteration satisfies
linkage, non-decreasing time and `validate_block` of the older block
(`adjacent_ok`); in particular the empty chain and every single-element chain
validate (the newest block is never individually checked — `adjacent_ok`
applies `validate_block` only to the older element of a pair). -/
theorem validate_chain_iff_adjacent_pairs {D : Type} (hash : Block D → List Nat) :
    (∀ c : List (Block D),
      Root.validate_chain hash c = true ↔
        List.Chain' (fun newer older => Root.adjacent_ok hash newer older = true) c) ∧
    Root.validate_chain hash ([] : List (Block D)) = true ∧
    (∀ b : Block D, Root.validate_chain hash [b] = true) := by
  have hmain : ∀ c : List (Block D),
      Root.validate_chain hash c = true ↔
        List.Chain' (fun newer older => Root.adjacent_ok hash newer older = true) c := by
    intro c
    unfold Root.validate_chain
    rw [foldl_chain_step hash c none true, Bool.true_and]
    exact pairs_ok_none_iff_chain' hash c
  refine ⟨hmain, ?_, ?_⟩
  · exact (hmain []).mpr (by simp)
  · intro b
    exact (hmain [b]).mpr (by simp)

/-! ## Stack serialization round-trip -/

theorem foldl_append_elems {T : Type} :
    ∀ (l : List T) (s : Lib.Stack T),
      (l.foldl (fun c v => c.append v) s).elems = l.reverse ++ s.elems ∧
        (l.foldl (fun c v => c.append v) s).len = l.length + s.len := by
  intro l
  induction l with
  | nil => intro s; simp
  | cons x t ih =>
    intro s
    rw [List.foldl_cons]
    rcases ih (s.append x) with ⟨he, hl⟩
    constructor
    · rw [he]
      simp [Lib.Stack.append]
    · rw [hl]
      simp [Lib.Stack.append]
      omega

theorem deserialize_elems {T : Type} (l : List T) :
    (Lib.Stack.deserialize l).elems = l ∧ (Lib.Stack.deserialize l).len = l.length := by
  unfold Lib.Stack.deserialize
  rcases foldl_append_elems l.reverse Lib.Stack.new with ⟨he, hl⟩
  constructor
  · rw [he]; simp [Lib.Stack.new]
  · rw [hl]; simp [Lib.Stack.new]

theorem zip_self_all_beq {T : Type} [DecidableEq T] :
    ∀ l : List T, ((l.zip l).all fun p => p.1 == p.2) = true := by
  intro l
  induction l with
  | nil => rfl
  | cons x t ih => simpa using ih

/-- Claim C6: for every stack satisfying the cached-length invariant
(`len` equals the number of reachable nodes — every stack built through the
module's operations satisfies it, the fields being private in the source),
deserializing the serialization yields a stack equal to the original under the
source's structural equality (`beqStacks`: equal cached lengths, pairwise
equal elements); moreover deserialization preserves the newest-first
iteration order, having pushed the decoded elements in reverse. -/
theorem stack_serialize_round_trip {T : Type} [DecidableEq T] (s : Lib.Stack T)
    (hinv : s.len = s.elems.length) :
    Lib.Stack.beqStacks (Lib.Stack.deserialize (Lib.Stack.serialize s)) s = true ∧
      (Lib.Stack.deserialize (Lib.Stack.serialize s)).elems = s.elems := by
  rcases deserialize_elems (Lib.Stack.serialize s) with ⟨he, hl⟩
  have hel : (Lib.Stack.deserialize (Lib.Stack.serialize s)).elems = s.elems := he
  refine ⟨?_, hel⟩
  unfold Lib.Stack.beqStacks
  rw [hel, hl, Lib.Stack.serialize, ← hinv]
  simp [zip_self_all_beq]

/-- Witness for C6: round trip of the concrete stack `[4, 2]` (cached length
2). -/
theorem stack_serialize_round_trip_witness :
    Lib.Stack.beqStacks
        (Lib.Stack.deserialize (Lib.Stack.serialize (⟨[4, 2], 2⟩ : Lib.Stack Nat)))
        ⟨[4, 2], 2⟩ = true ∧
      (Lib.Stack.deserialize
        (Lib.Stack.serialize (⟨[4, 2], 2⟩ : Lib.Stack Nat))).elems = [4, 2] :=
  stack_serialize_round_trip (⟨[4, 2], 2⟩ : Lib.Stack Nat) (by decide)

/-- The stack operations maintain the cached-length invariant assumed by the
round-trip theorem: `new`, `append` and `tail` all keep `len` equal to the
node count. -/
theorem stack_ops_maintain_len_invariant {T : Type} (s : Lib.Stack T) (e : T)
    (hinv : s.len = s.elems.length) :
    (Lib.Stack.new : Lib.Stack T).len = (Lib.Stack.new : Lib.Stack T).elems.length ∧
      (s.append e).len = (s.append e).elems.length ∧
      (s.tail).2.len = (s.tail).2.elems.length := by
  refine ⟨rfl, by simp [Lib.Stack.append, hinv], ?_⟩
  cases hc : s.elems with
  | nil => simp [Lib.Stack.tail, hc, hinv]
  | cons x t => simp [Lib.Stack.tail, hc, hinv]

/-! ## Proof of work -/

theorem increment_nonce_frame {D : Type} (b : Block D) (t : Nat) :
    (Lib.increment_nonce b t).version = b.version ∧
      (Lib.increment_nonce b t).prev_hash = b.prev_hash ∧
      (Lib.increment_nonce b t).difficulty = b.difficulty ∧
      (Lib.increment_nonce b t).data = b.data := by
  simp [Lib.increment_nonce, Lib.set_nonce]

/-- Claim C7: whenever the `proof_of_work` recursion returns (`proof_of_work_fuel`
returns `some`), the result agrees with the input block on `version`,
`prev_hash`, `difficulty` and `data` (only `nonce` and `time` may differ),
and a block that already satisfies its difficulty on entry is returned
unchanged. -/
theorem proof_of_work_frame {D : Type} (hash : Block D → List Nat) (ts : Nat → Nat) :
    ∀ (fuel : Nat) (b b' : Block D),
      Lib.proof_of_work_fuel hash ts fuel b = some b' →
        (b'.version = b.version ∧ b'.prev_hash = b.prev_hash ∧
          b'.difficulty = b.difficulty ∧ b'.data = b.data) ∧
        (Lib.validate_difficulty hash b = true → b' = b) := by
  intro fuel
  induction fuel with
  | zero => intro b b' h; cases h
  | succ n ih =>
    intro b b' h
    unfold Lib.proof_of_work_fuel at h
    by_cases hv : Lib.validate_difficulty hash b = true
    · rw [if_pos hv] at h
      cases h
      exact ⟨⟨rfl, rfl, rfl, rfl⟩, fun _ => rfl⟩
    · rw [if_neg hv] at h
      rcases (ih _ b' h).1 with ⟨h1, h2, h3, h4⟩
      rcases increment_nonce_frame b (ts n) with ⟨g1, g2, g3, g4⟩
      exact ⟨⟨h1.trans g1, h2.trans g2, h3.trans g3, h4.trans g4⟩,
        fun hvv => absurd hvv hv⟩

/-- Witness for C7: a difficulty-0 block is already valid, so one unit of fuel
returns it unchanged; the frame equalities follow by applying the theorem. -/
theorem proof_of_work_frame_witness :
    Lib.proof_of_work_fuel Ex.hashZ Ex.ts0 1 Ex.blkPow = some Ex.blkPow ∧
      Ex.blkPow.data = Ex.blkPow.data :=
  ⟨by decide,
    ((proof_of_work_frame Ex.hashZ Ex.ts0 1 Ex.blkPow Ex.blkPow (by decide)).1).2.2.2⟩

/-- Relevant to claim C8 (whose termination conjunct is not decidable in this
embedding): partial correctness of the mining loop — whenever
`proof_of_work` returns, the returned block satisfies the §4.2 difficulty
predicate, and no error value exists in its return type. -/
theorem proof_of_work_returns_satisfying {D : Type} (hash : Block D → List Nat)
    (ts : Nat → Nat) :
    ∀ (fuel : Nat) (b b' : Block D),
      Lib.proof_of_work_fuel hash ts fuel b = some b' →
        Lib.validate_difficulty hash b' = true := by
  intro fuel
  induction fuel with
  | zero => intro b b' h; cases h
  | succ n ih =>
    intro b b' h
    unfold Lib.proof_of_work_fuel at h
    by_cases hv : Lib.validate_difficulty hash b = true
    · rw [if_pos hv] at h
      cases h
      exact hv
    · rw [if_neg hv] at h
      exact ih _ b' h

/-! ## The worker's billing walk and rebuild -/

theorem lib_insert_ok_append {D : Type} (hash : Block D → List Nat)
    (c : Lib.Stack (Block D)) (b : Block D) (c' : Lib.Stack (Block D))
    (h : Lib.insert hash c b = Except.ok c') : c' = c.append b := by
  unfold Lib.insert at h
  cases hp : (match c.head with
    | none => Except.ok ()
    | some hd =>
      if hash hd == b.prev_hash then Except.ok ()
      else Except.error (BlockchainError.InvalidPrevHash b.prev_hash (hash hd)) :
        Except BlockchainError Unit) with
  | error e => rw [hp] at h; simp [Except.bind] at h
  | ok u =>
    rw [hp] at h
    simp only [Except.bind] at h
    by_cases hv : b.version ≠ VERSION
    · rw [if_pos hv] at h; simp at h
    · rw [if_neg hv] at h
      by_cases hd : Lib.validate_difficulty hash b = true
      · rw [if_pos hd] at h
        simpa using h.symm
      · rw [if_neg hd] at h; simp at h

theorem rebuild_fold_error (hash : Worker.Blk → List Nat) :
    ∀ (l : List Worker.Blk) (e : BlockchainError),
      (l.foldl (fun acc b => acc.bind fun c => Lib.insert hash c b)
        (Except.error e : Except BlockchainError (Lib.Stack Worker.Blk))) =
        Except.error e := by
  intro l
  induction l with
  | nil => intro e; rfl
  | cons b t ih => intro e; exact ih e

theorem rebuild_fold_ok_elems (hash : Worker.Blk → List Nat) :
    ∀ (l : List Worker.Blk) (s c' : Lib.Stack Worker.Blk),
      (l.foldl (fun acc b => acc.bind fun c => Lib.insert hash c b)
        (Except.ok s)) = Except.ok c' →
      c'.elems = l.reverse ++ s.elems := by
  intro l
  induction l with
  | nil => intro s c' h; simp at h; simp [← h]
  | cons b t ih =>
    intro s c' h
    rw [List.foldl_cons] at h
    replace h : (t.foldl (fun acc b => acc.bind fun c => Lib.insert hash c b)
      (Lib.insert hash s b)) = Except.ok c' := h
    cases hins : Lib.insert hash s b with
    | error e =>
      rw [hins] at h
      rw [rebuild_fold_error hash t e] at h
      cases h
    | ok s' =>
      rw [hins] at h
      have he := ih s' c' h
      have hs' : s' = s.append b := lib_insert_ok_append hash s b s' hins
      rw [he, hs']
      simp [Lib.Stack.append]

theorem rebuild_ok_elems (hash : Worker.Blk → List Nat) (l : List Worker.Blk)
    (c' : Lib.Stack Worker.Blk) (h : Worker.rebuild hash l = Except.ok c') :
    c'.elems = l.reverse := by
  have := rebuild_fold_ok_elems hash l Lib.Stack.new c' h
  simpa [Lib.Stack.new] using this

theorem walk_all_unmatched (verify : Worker.Verify) (q : Worker.BillingQuery) :
    ∀ (l acc : List Worker.Blk),
      (∀ b ∈ l, Worker.is_match verify q b = false) →
      (∀ b ∈ l, Lib.is_genesis b = false) →
      Worker.walk verify q l acc = some (acc ++ l) := by
  intro l
  induction l with
  | nil => intro acc _ _; simp [Worker.walk]
  | cons b t ih =>
    intro acc hm hg
    have hmb : Worker.is_match verify q b = false := hm b (by simp)
    have hgb : Lib.is_genesis b = false := hg b (by simp)
    show Worker.walk verify q (b :: t) acc = _
    unfold Worker.walk
    rw [hmb, hgb]
    simp only [Bool.false_eq_true, if_false]
    rw [ih (acc ++ [b]) (fun y hy => hm y (by simp [hy])) (fun y hy => hg y (by simp [hy]))]
    simp

theorem walk_first_match (verify : Worker.Verify) (q : Worker.BillingQuery) :
    ∀ (pre : List Worker.Blk) (m : Worker.Blk) (rest acc : List Worker.Blk),
      (∀ b ∈ pre, Worker.is_match verify q b = false) →
      (∀ b ∈ pre, Lib.is_genesis b = false) →
      Worker.is_match verify q m = true →
      Worker.walk verify q (pre ++ m :: rest) acc = some (acc ++ pre ++ [m]) := by
  intro pre
  induction pre with
  | nil =>
    intro m rest acc _ _ hmm
    show Worker.walk verify q (m :: rest) acc = _
    unfold Worker.walk
    rw [hmm]
    simp
  | cons b t ih =>
    intro m rest acc hm hg hmm
    have hmb : Worker.is_match verify q b = false := hm b (by simp)
    have hgb : Lib.is_genesis b = false := hg b (by simp)
    show Worker.walk verify q (b :: (t ++ m :: rest)) acc = _
    unfold Worker.walk
    rw [hmb, hgb]
    simp only [Bool.false_eq_true, if_false]
    rw [ih m rest (acc ++ [b]) (fun y hy => hm y (by simp [hy]))
      (fun y hy => hg y (by simp [hy])) hmm]
    simp

theorem walk_genesis_none (verify : Worker.Verify) (q : Worker.BillingQuery) :
    ∀ (pre : List Worker.Blk) (g : Worker.Blk) (rest acc : List Worker.Blk),
      (∀ b ∈ pre, Worker.is_match verify q b = false) →
      (∀ b ∈ pre, Lib.is_genesis b = false) →
      Worker.is_match verify q g = false →
      Lib.is_genesis g = true →
      Worker.walk verify q (pre ++ g :: rest) acc = none := by
  intro pre
  induction pre with
  | nil =>
    intro g rest acc _ _ hmg hgg
    show Worker.walk verify q (g :: rest) acc = _
    unfold Worker.walk
    rw [hmg, hgg]
    simp
  | cons b t ih =>
    intro g rest acc hm hg hmg hgg
    have hmb : Worker.is_match verify q b = false := hm b (by simp)
    have hgb : Lib.is_genesis b = false := hg b (by simp)
    show Worker.walk verify q (b :: (t ++ g :: rest)) acc = _
    unfold Worker.walk
    rw [hmb, hgb]
    simp only [Bool.false_eq_true, if_false]
    exact ih g rest (acc ++ [b]) (fun y hy => hm y (by simp [hy]))
      (fun y hy => hg y (by simp [hy])) hmg hgg

/-- Claim C2 counterexample: on the one-block chain whose Billing block
matches the query but carries version 2, `latest_billing` returns the null
result even though a first matching Billing block exists — the rebuild insert
fails and `.ok()` swallows the error — contradicting the claim that the
result is the freshly built chain of the collected blocks. -/
theorem latest_billing_match_yet_null :
    Worker.latest_billing Ex.hashZ Ex.verifyT Ex.query7 Ex.chainBB = none ∧
      Worker.is_match Ex.verifyT Ex.query7 Ex.billingBad = true ∧
      Ex.chainBB.elems = [Ex.billingBad] := by
  refine ⟨by decide, by decide, rfl⟩

/-- Claim C2 (amended): the walk stops inclusively at the first matching
Billing block, and — provided every rebuild insert succeeds — the result is
the freshly built chain holding exactly the collected blocks oldest-first
(newest-first iteration `pre ++ [m]`, head equal to the original chain's
head); when a genesis-like block is passed without a match, the result is
null. -/
theorem latest_billing_first_match (hash : Worker.Blk → List Nat)
    (verify : Worker.Verify) (q : Worker.BillingQuery) :
    (∀ (c : Lib.Stack Worker.Blk) (pre : List Worker.Blk) (m : Worker.Blk)
        (rest : List Worker.Blk) (c' : Lib.Stack Worker.Blk),
      c.elems = pre ++ m :: rest →
      (∀ b ∈ pre, Worker.is_match verify q b = false) →
      (∀ b ∈ pre, Lib.is_genesis b = false) →
      Worker.is_match verify q m = true →
      Worker.rebuild hash (pre ++ [m]).reverse = Except.ok c' →
      Worker.latest_billing hash verify q c = some c' ∧
        c'.elems = pre ++ [m] ∧ c'.head = c.head) ∧
    (∀ (c : Lib.Stack Worker.Blk) (pre : List Worker.Blk) (g : Worker.Blk)
        (rest : List Worker.Blk),
      c.elems = pre ++ g :: rest →
      (∀ b ∈ pre, Worker.is_match verify q b = false) →
      (∀ b ∈ pre, Lib.is_genesis b = false) →
      Worker.is_match verify q g = false →
      Lib.is_genesis g = true →
      Worker.latest_billing hash verify q c = none) := by
  constructor
  · intro c pre m rest c' hc hpre hgen hmm hrb
    have hwalk : Worker.walk verify q c.elems [] = some (pre ++ [m]) := by
      rw [hc]
      simpa using walk_first_match verify q pre m rest [] hpre hgen hmm
    have hel : c'.elems = pre ++ [m] := by
      have := rebuild_ok_elems hash _ c' hrb
      simpa using this
    refine ⟨?_, hel, ?_⟩
    · unfold Worker.latest_billing
      rw [hwalk]
      show resOk (Worker.rebuild hash (pre ++ [m]).reverse) = some c'
      rw [hrb]
      rfl
    · show c'.elems.head? = c.elems.head?
      rw [hel, hc]
      cases pre <;> simp
  · intro c pre g rest hc hpre hgen hmg hgg
    have hwalk : Worker.walk verify q c.elems [] = none := by
      rw [hc]
      exact walk_genesis_none verify q pre g rest [] hpre hgen hmg hgg
    unfold Worker.latest_billing
    rw [hwalk]

/-- Witness for the amended C2: a one-block chain holding a valid matching
Billing block is returned whole. -/
theorem latest_billing_first_match_witness :
    Worker.latest_billing Ex.hashZ Ex.verifyT Ex.query7 Ex.chainBG =
        some Ex.chainBG ∧
      Ex.chainBG.elems = [] ++ [Ex.billingGood] ∧
      Ex.chainBG.head = Ex.chainBG.head :=
  (latest_billing_first_match Ex.hashZ Ex.verifyT Ex.query7).1 Ex.chainBG []
    Ex.billingGood [] Ex.chainBG rfl (by simp) (by simp) (by decide) (by rfl)

/-- Claim C9 counterexample: a one-block chain whose only block is a
non-matching, non-genesis Usage block of version 2 makes `latest_billing`
return null — the walk never meets a genesis-like block, yet the rebuild
insert fails and the swallowed error yields `None` — contradicting the claim
that the result is then a non-null rebuild of all walked blocks. -/
theorem latest_billing_exhausted_yet_null :
    Worker.latest_billing Ex.hashZ Ex.verifyF Ex.query7 Ex.chainUB = none ∧
      Worker.is_match Ex.verifyF Ex.query7 Ex.usageBad = false ∧
      Lib.is_genesis Ex.usageBad = false ∧
      Ex.chainUB.elems = [Ex.usageBad] := by
  refine ⟨by decide, by decide, by decide, rfl⟩

/-- Claim C9 (amended): on the empty chain `latest_billing` returns a
non-null empty chain; on a chain none of whose blocks matches or is
genesis-like, it returns the non-null rebuild of all walked blocks provided
every rebuild insert succeeds. -/
theorem latest_billing_exhausted_walk (hash : Worker.Blk → List Nat)
    (verify : Worker.Verify) (q : Worker.BillingQuery) :
    Worker.latest_billing hash verify q Lib.Stack.new = some Lib.Stack.new ∧
    (∀ (c c' : Lib.Stack Worker.Blk),
      (∀ b ∈ c.elems, Worker.is_match verify q b = false) →
      (∀ b ∈ c.elems, Lib.is_genesis b = false) →
      Worker.rebuild hash c.elems.reverse = Except.ok c' →
      Worker.latest_billing hash verify q c = some c') := by
  constructor
  · rfl
  · intro c c' hm hg hrb
    have hwalk : Worker.walk verify q c.elems [] = some c.elems := by
      simpa using walk_all_unmatched verify q c.elems [] hm hg
    unfold Worker.latest_billing
    rw [hwalk]
    show resOk (Worker.rebuild hash c.elems.reverse) = some c'
    rw [hrb]
    rfl

/-- Witness for the amended C9: a one-block chain of a valid, non-matching,
non-genesis Usage block is rebuilt and returned whole. -/
theorem latest_billing_exhausted_walk_witness :
    Worker.latest_billing Ex.hashZ Ex.verifyF Ex.query7 Ex.chainUG =
      some Ex.chainUG :=
  (latest_billing_exhausted_walk Ex.hashZ Ex.verifyF Ex.query7).2 Ex.chainUG
    Ex.chainUG (by decide) (by decide) (by rfl)

/-- Claim C10: when the external signature verification returns an error on a
Billing block whose fingerprint matches the queried user, the error is
swallowed (`unwrap_or(false)`): the block does not terminate the walk as a
billing match, and (unless the block is genesis-like, which ends any walk)
the walk continues toward older blocks with the block collected. -/
theorem verify_error_treated_as_failure (verify : Worker.Verify)
    (q : Worker.BillingQuery) (blk : Worker.Blk) (rest acc : List Worker.Blk)
    (hb : blk.data.data = Worker.Data.Billing q.user)
    (he : verify q.signee blk.data = Except.error ()) :
    Worker.is_match verify q blk = false ∧
      (Lib.is_genesis blk = false →
        Worker.walk verify q (blk :: rest) acc =
          Worker.walk verify q rest (acc ++ [blk])) := by
  have hmf : Worker.is_match verify q blk = false := by
    unfold Worker.is_match
    rw [hb]
    simp [Worker.unwrap_or_false, he]
  refine ⟨hmf, fun hgen => ?_⟩
  have hstep : Worker.walk verify q (blk :: rest) acc =
      (if Worker.is_match verify q blk then some (acc ++ [blk])
       else if Lib.is_genesis blk then none
       else Worker.walk verify q rest (acc ++ [blk])) := rfl
  rw [hstep, hmf, hgen]
  simp

/-- Witness for C10: with an always-erroring verifier, the matching Billing
block is skipped and the walk moves on. -/
theorem verify_error_treated_as_failure_witness :
    Worker.is_match Ex.verifyE Ex.query7 Ex.billingGood = false ∧
      Worker.walk Ex.verifyE Ex.query7 [Ex.billingGood, Ex.usageGood] [] =
        Worker.walk Ex.verifyE Ex.query7 [Ex.usageGood] [Ex.billingGood] :=
  ⟨(verify_error_treated_as_failure Ex.verifyE Ex.query7 Ex.billingGood
      [Ex.usageGood] [] rfl rfl).1,
    (verify_error_treated_as_failure Ex.verifyE Ex.query7 Ex.billingGood
      [Ex.usageGood] [] rfl rfl).2 (by decide)⟩

/-- Claim C5: the wrapper's `append` is gated by `Chain::insert`: on insert
success the snapshot becomes the inserted chain and the call succeeds no
matter the persistence outcome (the persistence result is swallowed); on
insert failure the specific error collapses to `InvalidBlock` and the
snapshot is unchanged. -/
theorem wrapped_append_insert_gate (hash : Worker.Blk → List Nat)
    (persist : Except PersistingError Unit) (s : Lib.Stack Worker.Blk)
    (b : Worker.Blk) :
    (∀ n, Lib.insert hash s b = Except.ok n →
      Worker.wrapped_append hash persist s b = (Except.ok (), n)) ∧
    (∀ e, Lib.insert hash s b = Except.error e →
      Worker.wrapped_append hash persist s b =
        (Except.error Worker.WorkerError.InvalidBlock, s)) ∧
    Worker.wrapped_append hash persist s b =
      Worker.wrapped_append hash (Except.ok ()) s b := by
  refine ⟨?_, ?_, ?_⟩
  · intro n hins
    unfold Worker.wrapped_append
    rw [hins]
  · intro e hins
    unfold Worker.wrapped_append
    rw [hins]
  · rfl

/-- Witness for C5: a valid block is appended and the call succeeds even
though the modelled persistence outcome is an `IoError` — the in-memory
insert stays committed. -/
theorem wrapped_append_insert_gate_witness :
    Worker.wrapped_append Ex.hashZ (Except.error PersistingError.IoError)
        Lib.Stack.new Ex.usageGood =
      (Except.ok (), Lib.Stack.new.append Ex.usageGood) :=
  (wrapped_append_insert_gate Ex.hashZ (Except.error PersistingError.IoError)
      Lib.Stack.new Ex.usageGood).1 (Lib.Stack.new.append Ex.usageGood) (by rfl)

end BC
